import Mathlib

/-!
Verification of the whale repository's deferred loan-scheme indexer
(`SetDeferredLoanSchemeIndexer`) and vault read-model builder
(`LoanVaultService`), as a shallow embedding in Lean 4.

The external key/value persistence mappers (get/put/delete/query) are
modelled as association lists keyed by strings; blockchain heights and
`BigNumber` height comparisons are modelled over `Nat`; fallible code
returns explicit error values.
-/

set_option autoImplicit false

/-! ## Keyed tables (model of the external persistence mappers) -/

/-- A keyed table: the model of an external key/value mapper.  Keys are
strings; the list order models the store's (unspecified, stable) scan
order. -/
abbrev Table (α : Type) : Type := List (String × α)

/-- Mapper `get(id)`: the value stored under key `k`, if any. -/
def tableGet {α : Type} : Table α → String → Option α
  | [], _ => none
  | p :: t, k => if p.1 = k then some p.2 else tableGet t k

/-- Mapper `delete(id)`: remove the entry stored under key `k`. -/
def tableDelete {α : Type} (t : Table α) (k : String) : Table α :=
  t.filter (fun p => decide (p.1 ≠ k))

/-- Mapper `put(value)` keyed by `k`: overwrite any entry under `k` with `v`.
As a finite map this is exactly the mapper's upsert; the position the
pair ends up in is a modelling artifact (theorems only observe
`tableGet`). -/
def tablePut {α : Type} (t : Table α) (k : String) (v : α) : Table α :=
  (k, v) :: tableDelete t k

/-! ## Data model (spec §3; the module.model files are external to src/) -/

/-- A loan-scheme record: identifier, minimum collateral ratio, interest
rate, and the scheduled activation height.  One shape serves the
LoanScheme, LoanSchemeHistory and DeferredLoanScheme tables, as the
indexer freely stores a record from one table into another. -/
structure LoanSchemeRecord where
  id : String
  ratio : Nat
  rate : String
  activateAfterBlock : Nat
deriving DecidableEq

/-- A `put` of a record into a table keyed by the record's own `id`, the
way `loanSchemeMapper.put` / `deferredLoanSchemeMapper.put` key their
argument. -/
def putRecord (t : Table LoanSchemeRecord) (r : LoanSchemeRecord) : Table LoanSchemeRecord :=
  tablePut t r.id r

/-- The persisted state the indexer reads and writes: the current
LoanScheme table, the DeferredLoanScheme table, and the (read-only here)
LoanSchemeHistory table, keyed by scheme id with records most-recent
first. -/
structure IndexerState where
  loanScheme : Table LoanSchemeRecord
  deferred : Table LoanSchemeRecord
  history : Table (List LoanSchemeRecord)
deriving DecidableEq

/-- Query `deferredLoanSchemeMapper.query(n)`: up to `n` deferred records in
store order. -/
def deferredQuery (st : IndexerState) (n : Nat) : List LoanSchemeRecord :=
  (st.deferred.take n).map Prod.snd

/-- Query `loanSchemeHistoryMapper.query(loanSchemeId, n)`: up to `n` history
records for the scheme, most recent first. -/
def histQuery (st : IndexerState) (loanSchemeId : String) (n : Nat) : List LoanSchemeRecord :=
  ((tableGet st.history loanSchemeId).getD []).take n

/-- The most recent history record for a scheme, if any. -/
def histHead (st : IndexerState) (loanSchemeId : String) : Option LoanSchemeRecord :=
  ((tableGet st.history loanSchemeId).getD []).head?

/-- The decoded `CreateLoanScheme` transaction payload; the indexer's
`invalidate` only reads `identifier`. -/
structure LoanSchemeDfTx where
  ratio : Nat
  rate : String
  identifier : String
  update : String
deriving DecidableEq

/-- Error `NotFoundIndexerError(action, type, id)`. -/
inductive IndexerErr where
  | notFound (action : String) (type : String) (id : String)
deriving DecidableEq

/-! ## SetDeferredLoanSchemeIndexer -/

namespace SetDeferredLoanSchemeIndexer

/-- One iteration of the loop in `index`: if the deferred entry is due
(`new BigNumber(block.height).gte(each.activateAfterBlock)`), put it
into the LoanScheme table and delete it from the DeferredLoanScheme
table. -/
def indexStep (height : Nat) (st : IndexerState) (each : LoanSchemeRecord) : IndexerState :=
  if each.activateAfterBlock ≤ height then
    { st with
      loanScheme := putRecord st.loanScheme each
      deferred := tableDelete st.deferred each.id }
  else st

/-- Method `index(block)`: snapshot up to 100 deferred entries, then promote
each one that is due at this block height. -/
def index (height : Nat) (st : IndexerState) : IndexerState :=
  (deferredQuery st 100).foldl (indexStep height) st

/-- Method `getPrevLoanScheme(loanSchemeId)`: the most recent history record,
or a `NotFoundIndexerError` when none exists. -/
def getPrevLoanScheme (st : IndexerState) (loanSchemeId : String) :
    Except IndexerErr LoanSchemeRecord :=
  match histQuery st loanSchemeId 1 with
  | [] => .error (.notFound "index" "LoanSchemeHistory" loanSchemeId)
  | h :: _ => .ok h

/-- Method `getCurrentLoanScheme(loanSchemeId)`: the current LoanScheme record,
or a `NotFoundIndexerError` when absent. -/
def getCurrentLoanScheme (st : IndexerState) (loanSchemeId : String) :
    Except IndexerErr LoanSchemeRecord :=
  match tableGet st.loanScheme loanSchemeId with
  | none => .error (.notFound "index" "LoanScheme" loanSchemeId)
  | some r => .ok r

/-- The body of `invalidate`'s per-transaction loop: look up the current
LoanScheme record and the most recent history record (both lookups
before any write), then put the current record into the
DeferredLoanScheme table and the history record into the LoanScheme
table.  On a failed lookup the error is returned with the state
untouched (the real loop rethrows, leaving prior iterations' writes in
place). -/
def invalidateTx (st : IndexerState) (tx : LoanSchemeDfTx) :
    IndexerState × Option IndexerErr :=
  match getCurrentLoanScheme st tx.identifier with
  | .error e => (st, some e)
  | .ok prevDeferredLoanScheme =>
    match getPrevLoanScheme st tx.identifier with
    | .error e => (st, some e)
    | .ok prevLoanScheme =>
      ({ st with
          deferred := putRecord st.deferred prevDeferredLoanScheme
          loanScheme := putRecord st.loanScheme prevLoanScheme }, none)

/-- Method `invalidate(block, txns)`: roll back each matching transaction in
order, halting at (and propagating) the first error; the state reached
so far is returned alongside the outcome. -/
def invalidate (st : IndexerState) (txns : List LoanSchemeDfTx) :
    IndexerState × Option IndexerErr :=
  match txns with
  | [] => (st, none)
  | tx :: rest =>
    match invalidateTx st tx with
    | (st1, none) => invalidate st1 rest
    | (st1, some e) => (st1, some e)

end SetDeferredLoanSchemeIndexer

/-! ## Well-formedness of the persisted tables -/

/-- Every pair in a record table is keyed by its record's `id` (which is
how `putRecord` stores them). -/
def wfRecTable (t : Table LoanSchemeRecord) : Prop :=
  ∀ p ∈ t, p.1 = p.2.id

/-- The table's keys are distinct (a key/value store holds one value per
key). -/
def wfKeys {α : Type} (t : Table α) : Prop :=
  (t.map Prod.fst).Nodup

/-- Every history record is filed under its own scheme id. -/
def wfHistTable (t : Table (List LoanSchemeRecord)) : Prop :=
  ∀ p ∈ t, ∀ r ∈ p.2, r.id = p.1

/-- Well-formedness of the whole indexer state. -/
structure WFState (st : IndexerState) : Prop where
  loan : wfRecTable st.loanScheme
  deferredRec : wfRecTable st.deferred
  deferredKeys : wfKeys st.deferred
  hist : wfHistTable st.history

instance wfRecTable.decidable (t : Table LoanSchemeRecord) : Decidable (wfRecTable t) :=
  inferInstanceAs (Decidable (∀ p ∈ t, p.1 = p.2.id))

instance wfKeys.decidable {α : Type} (t : Table α) : Decidable (wfKeys t) :=
  inferInstanceAs (Decidable ((t.map Prod.fst).Nodup))

instance wfHistTable.decidable (t : Table (List LoanSchemeRecord)) : Decidable (wfHistTable t) :=
  inferInstanceAs (Decidable (∀ p ∈ t, ∀ r ∈ p.2, r.id = p.1))

/-! ## Table lemmas -/

open SetDeferredLoanSchemeIndexer

theorem tableGet_nil {α : Type} (k : String) : tableGet ([] : Table α) k = none := rfl

theorem tableGet_cons {α : Type} (p : String × α) (t : Table α) (k : String) :
    tableGet (p :: t) k = if p.1 = k then some p.2 else tableGet t k := rfl

theorem tableDelete_cons_eq {α : Type} (p : String × α) (t : Table α) (k : String)
    (h : p.1 = k) : tableDelete (p :: t) k = tableDelete t k := by
  simp [tableDelete, List.filter_cons, h]

theorem tableDelete_cons_ne {α : Type} (p : String × α) (t : Table α) (k : String)
    (h : ¬ p.1 = k) : tableDelete (p :: t) k = p :: tableDelete t k := by
  simp [tableDelete, List.filter_cons, h]

theorem tableGet_tableDelete {α : Type} (t : Table α) (k k' : String) :
    tableGet (tableDelete t k) k' = if k' = k then none else tableGet t k' := by
  induction t with
  | nil => simp [tableDelete, tableGet]
  | cons p t ih =>
    by_cases hpk : p.1 = k
    · rw [tableDelete_cons_eq p t k hpk, ih]
      by_cases hk : k' = k
      · simp [hk]
      · have hpk' : ¬ p.1 = k' := by rw [hpk]; exact fun h => hk h.symm
        simp [hk, tableGet_cons, hpk']
    · rw [tableDelete_cons_ne p t k hpk, tableGet_cons, tableGet_cons, ih]
      by_cases hpk' : p.1 = k'
      · have hk : ¬ k' = k := by rw [← hpk']; exact fun h => hpk h
        simp [hpk', hk]
      · by_cases hk : k' = k <;> simp [hpk', hk, hpk]

theorem tableGet_tablePut {α : Type} (t : Table α) (k : String) (v : α) (k' : String) :
    tableGet (tablePut t k v) k' = if k = k' then some v else tableGet t k' := by
  rw [tablePut, tableGet_cons, tableGet_tableDelete]
  by_cases hk : k = k'
  · simp [hk]
  · have : ¬ k' = k := fun h => hk h.symm
    simp [hk, this]

theorem tableGet_putRecord (t : Table LoanSchemeRecord) (r : LoanSchemeRecord) (k : String) :
    tableGet (putRecord t r) k = if r.id = k then some r else tableGet t k := by
  rw [putRecord, tableGet_tablePut]

theorem tableGet_some_mem {α : Type} (t : Table α) (k : String) (v : α)
    (h : tableGet t k = some v) : (k, v) ∈ t := by
  induction t with
  | nil => simp [tableGet] at h
  | cons p t ih =>
    rw [tableGet_cons] at h
    by_cases hpk : p.1 = k
    · rw [if_pos hpk] at h
      have hv : p.2 = v := by exact Option.some_injective _ h
      have : p = (k, v) := by
        cases p; cases hpk; cases hv; rfl
      rw [← this]; exact List.mem_cons_self _ _
    · rw [if_neg hpk] at h
      exact List.mem_cons_of_mem _ (ih h)

theorem tableGet_of_mem_nodup {α : Type} (t : Table α) (p : String × α)
    (hp : p ∈ t) (hnd : wfKeys t) : tableGet t p.1 = some p.2 := by
  induction t with
  | nil => cases hp
  | cons q t ih =>
    rcases List.mem_cons.mp hp with hq | hmem
    · rw [hq, tableGet_cons, if_pos rfl]
    · have hne : ¬ q.1 = p.1 := by
        intro h
        have h1 : q.1 ∉ t.map Prod.fst := (List.nodup_cons.mp hnd).1
        exact h1 (h ▸ List.mem_map_of_mem Prod.fst hmem)
      rw [tableGet_cons, if_neg hne]
      exact ih hmem (List.nodup_cons.mp hnd).2

theorem mem_key_inj {α : Type} (t : Table α) (hnd : wfKeys t) (p q : String × α)
    (hp : p ∈ t) (hq : q ∈ t) (h : p.1 = q.1) : p = q := by
  have h1 : tableGet t p.1 = some p.2 := tableGet_of_mem_nodup t p hp hnd
  have h2 : tableGet t q.1 = some q.2 := tableGet_of_mem_nodup t q hq hnd
  rw [h] at h1
  rw [h1] at h2
  have : p.2 = q.2 := Option.some_injective _ h2
  cases p; cases q; cases h; cases this; rfl

theorem not_mem_of_tableGet_none {α : Type} (t : Table α) (k : String)
    (h : tableGet t k = none) : ∀ p ∈ t, p.1 ≠ k := by
  induction t with
  | nil => intro p hp; cases hp
  | cons q t ih =>
    rw [tableGet_cons] at h
    by_cases hqk : q.1 = k
    · rw [if_pos hqk] at h; cases h
    · rw [if_neg hqk] at h
      intro p hp
      rcases List.mem_cons.mp hp with hq | hmem
      · rw [hq]; exact hqk
      · exact ih h p hmem

/-! ## Well-formedness preservation -/

theorem wfRecTable_tableDelete (t : Table LoanSchemeRecord) (k : String)
    (h : wfRecTable t) : wfRecTable (tableDelete t k) :=
  fun p hp => h p (List.mem_of_mem_filter hp)

theorem wfRecTable_putRecord (t : Table LoanSchemeRecord) (r : LoanSchemeRecord)
    (h : wfRecTable t) : wfRecTable (putRecord t r) := by
  intro p hp
  rcases List.mem_cons.mp hp with hq | hmem
  · rw [hq]
  · exact wfRecTable_tableDelete t r.id h p hmem

theorem wfKeys_tableDelete {α : Type} (t : Table α) (k : String)
    (h : wfKeys t) : wfKeys (tableDelete t k) :=
  List.Nodup.sublist (List.Sublist.map Prod.fst (List.filter_sublist t)) h

theorem wfKeys_tablePut {α : Type} (t : Table α) (k : String) (v : α)
    (h : wfKeys t) : wfKeys (tablePut t k v) := by
  rw [tablePut, wfKeys, List.map_cons, List.nodup_cons]
  refine ⟨?_, wfKeys_tableDelete t k h⟩
  intro hmem
  rcases List.mem_map.mp hmem with ⟨p, hp, hpk⟩
  have := List.of_mem_filter hp
  simp only [decide_eq_true_eq] at this
  exact this hpk

theorem wfKeys_putRecord (t : Table LoanSchemeRecord) (r : LoanSchemeRecord)
    (h : wfKeys t) : wfKeys (putRecord t r) :=
  wfKeys_tablePut t r.id r h

theorem get_wfRec_id (t : Table LoanSchemeRecord) (k : String) (v : LoanSchemeRecord)
    (hwf : wfRecTable t) (h : tableGet t k = some v) : v.id = k :=
  (hwf (k, v) (tableGet_some_mem t k v h)).symm

theorem histHead_wf_id (st : IndexerState) (i : String) (r : LoanSchemeRecord)
    (hwf : wfHistTable st.history) (h : histHead st i = some r) : r.id = i := by
  rw [histHead] at h
  cases hl : tableGet st.history i with
  | none => rw [hl] at h; simp at h
  | some l =>
    rw [hl] at h
    have hmem : (i, l) ∈ st.history := tableGet_some_mem _ _ _ hl
    have hr : r ∈ l := by
      cases l with
      | nil => simp at h
      | cons a t =>
        simp only [Option.getD_some, List.head?_cons, Option.some_inj] at h
        rw [← h]; exact List.mem_cons_self _ _
    exact hwf (i, l) hmem r hr

/-! ## Behaviour of the forward pass (`index`) -/

theorem indexStep_history (h : Nat) (st : IndexerState) (e : LoanSchemeRecord) :
    (indexStep h st e).history = st.history := by
  rw [indexStep]; split <;> rfl

theorem idx_fold_history (h : Nat) (l : List LoanSchemeRecord) (st : IndexerState) :
    (l.foldl (indexStep h) st).history = st.history := by
  induction l generalizing st with
  | nil => rfl
  | cons e l ih => rw [List.foldl_cons, ih, indexStep_history]

theorem index_history (h : Nat) (st : IndexerState) :
    (index h st).history = st.history :=
  idx_fold_history h _ st

theorem indexStep_get_ne (h : Nat) (st : IndexerState) (e : LoanSchemeRecord) (k : String)
    (hk : e.activateAfterBlock ≤ h → ¬ e.id = k) :
    tableGet (indexStep h st e).loanScheme k = tableGet st.loanScheme k ∧
    tableGet (indexStep h st e).deferred k = tableGet st.deferred k := by
  rw [indexStep]
  split
  · rename_i hdue
    have hne := hk hdue
    constructor
    · rw [tableGet_putRecord, if_neg hne]
    · rw [tableGet_tableDelete, if_neg (fun hke => hne hke.symm)]
  · exact ⟨rfl, rfl⟩

theorem idx_fold_untouched (h : Nat) (k : String) (l : List LoanSchemeRecord)
    (st : IndexerState) (hl : ∀ e ∈ l, e.activateAfterBlock ≤ h → ¬ e.id = k) :
    tableGet (l.foldl (indexStep h) st).loanScheme k = tableGet st.loanScheme k ∧
    tableGet (l.foldl (indexStep h) st).deferred k = tableGet st.deferred k := by
  induction l generalizing st with
  | nil => exact ⟨rfl, rfl⟩
  | cons e l ih =>
    rw [List.foldl_cons]
    have hstep := indexStep_get_ne h st e k (hl e (List.mem_cons_self _ _))
    have hrest := ih (indexStep h st e) (fun x hx => hl x (List.mem_cons_of_mem _ hx))
    exact ⟨hrest.1.trans hstep.1, hrest.2.trans hstep.2⟩

theorem idx_fold_keep (h : Nat) (k : String) (e : LoanSchemeRecord)
    (l : List LoanSchemeRecord) (st : IndexerState)
    (hl : ∀ x ∈ l, x.id = k → x = e ∧ e.activateAfterBlock ≤ h)
    (hc : tableGet st.loanScheme k = some e) (hd : tableGet st.deferred k = none) :
    tableGet (l.foldl (indexStep h) st).loanScheme k = some e ∧
    tableGet (l.foldl (indexStep h) st).deferred k = none := by
  induction l generalizing st with
  | nil => exact ⟨hc, hd⟩
  | cons x l ih =>
    rw [List.foldl_cons]
    by_cases hx : x.id = k
    · obtain ⟨hxe, hdue⟩ := hl x (List.mem_cons_self _ _) hx
      subst hxe
      have hstep1 : tableGet (indexStep h st x).loanScheme k = some x := by
        rw [indexStep, if_pos hdue]
        show tableGet (putRecord st.loanScheme x) k = some x
        rw [tableGet_putRecord, if_pos hx]
      have hstep2 : tableGet (indexStep h st x).deferred k = none := by
        rw [indexStep, if_pos hdue]
        show tableGet (tableDelete st.deferred x.id) k = none
        rw [tableGet_tableDelete, if_pos hx.symm]
      exact ih (indexStep h st x) (fun y hy => hl y (List.mem_cons_of_mem _ hy)) hstep1 hstep2
    · have hstep := indexStep_get_ne h st x k (fun _ => hx)
      exact ih (indexStep h st x) (fun y hy => hl y (List.mem_cons_of_mem _ hy))
        (hstep.1.trans hc) (hstep.2.trans hd)

theorem idx_fold_promote (h : Nat) (k : String) (e : LoanSchemeRecord)
    (l : List LoanSchemeRecord) (st : IndexerState)
    (he : e ∈ l) (hek : e.id = k) (hdue : e.activateAfterBlock ≤ h)
    (huniq : ∀ x ∈ l, x.id = k → x = e) :
    tableGet (l.foldl (indexStep h) st).loanScheme k = some e ∧
    tableGet (l.foldl (indexStep h) st).deferred k = none := by
  induction l generalizing st with
  | nil => cases he
  | cons x l ih =>
    rw [List.foldl_cons]
    by_cases hx : x.id = k
    · have hxe : x = e := huniq x (List.mem_cons_self _ _) hx
      subst hxe
      have hstep1 : tableGet (indexStep h st x).loanScheme k = some x := by
        rw [indexStep, if_pos hdue]
        show tableGet (putRecord st.loanScheme x) k = some x
        rw [tableGet_putRecord, if_pos hx]
      have hstep2 : tableGet (indexStep h st x).deferred k = none := by
        rw [indexStep, if_pos hdue]
        show tableGet (tableDelete st.deferred x.id) k = none
        rw [tableGet_tableDelete, if_pos hx.symm]
      exact idx_fold_keep h k x l (indexStep h st x)
        (fun y hy hyk => ⟨huniq y (List.mem_cons_of_mem _ hy) hyk, hdue⟩) hstep1 hstep2
    · have he' : e ∈ l := by
        rcases List.mem_cons.mp he with hex | hmem
        · exact absurd (hex ▸ hek) hx
        · exact hmem
      exact ih (indexStep h st x) he' (fun y hy => huniq y (List.mem_cons_of_mem _ hy))

theorem indexStep_WF (h : Nat) (st : IndexerState) (e : LoanSchemeRecord)
    (hwf : WFState st) : WFState (indexStep h st e) := by
  rw [indexStep]
  split
  · exact
      { loan := wfRecTable_putRecord _ _ hwf.loan
        deferredRec := wfRecTable_tableDelete _ _ hwf.deferredRec
        deferredKeys := wfKeys_tableDelete _ _ hwf.deferredKeys
        hist := hwf.hist }
  · exact hwf

theorem idx_fold_WF (h : Nat) (l : List LoanSchemeRecord) (st : IndexerState)
    (hwf : WFState st) : WFState (l.foldl (indexStep h) st) := by
  induction l generalizing st with
  | nil => exact hwf
  | cons e l ih => exact ih (indexStep h st e) (indexStep_WF h st e hwf)

theorem index_WF (h : Nat) (st : IndexerState) (hwf : WFState st) :
    WFState (index h st) :=
  idx_fold_WF h _ st hwf

/-! ## Behaviour of the rollback pass (`invalidate`) -/

theorem getPrev_histHead (st : IndexerState) (i : String) :
    getPrevLoanScheme st i =
      match histHead st i with
      | none => .error (.notFound "index" "LoanSchemeHistory" i)
      | some r => .ok r := by
  rw [getPrevLoanScheme, histQuery, histHead]
  cases (tableGet st.history i).getD [] with
  | nil => rfl
  | cons a t => rfl

theorem invalidateTx_ok (st : IndexerState) (tx : LoanSchemeDfTx)
    (cur prev : LoanSchemeRecord)
    (hc : tableGet st.loanScheme tx.identifier = some cur)
    (hh : histHead st tx.identifier = some prev) :
    invalidateTx st tx =
      ({ st with
          deferred := putRecord st.deferred cur
          loanScheme := putRecord st.loanScheme prev }, none) := by
  rw [invalidateTx, getCurrentLoanScheme, hc, getPrev_histHead, hh]

theorem invalidateTx_fail_cur (st : IndexerState) (tx : LoanSchemeDfTx)
    (hc : tableGet st.loanScheme tx.identifier = none) :
    invalidateTx st tx = (st, some (.notFound "index" "LoanScheme" tx.identifier)) := by
  rw [invalidateTx, getCurrentLoanScheme, hc]

theorem invalidateTx_fail_hist (st : IndexerState) (tx : LoanSchemeDfTx)
    (cur : LoanSchemeRecord)
    (hc : tableGet st.loanScheme tx.identifier = some cur)
    (hh : histHead st tx.identifier = none) :
    invalidateTx st tx = (st, some (.notFound "index" "LoanSchemeHistory" tx.identifier)) := by
  rw [invalidateTx, getCurrentLoanScheme, hc, getPrev_histHead, hh]

theorem inv_run_ok :
    ∀ (txns : List LoanSchemeDfTx) (st : IndexerState),
    wfRecTable st.loanScheme → wfHistTable st.history →
    (txns.map (fun tx => tx.identifier)).Nodup →
    (∀ tx ∈ txns, (tableGet st.loanScheme tx.identifier).isSome) →
    (∀ tx ∈ txns, (histHead st tx.identifier).isSome) →
    (invalidate st txns).2 = none ∧
    (invalidate st txns).1.history = st.history ∧
    (∀ k, k ∉ txns.map (fun tx => tx.identifier) →
       tableGet (invalidate st txns).1.loanScheme k = tableGet st.loanScheme k ∧
       tableGet (invalidate st txns).1.deferred k = tableGet st.deferred k) ∧
    (∀ tx ∈ txns,
       tableGet (invalidate st txns).1.deferred tx.identifier = tableGet st.loanScheme tx.identifier ∧
       tableGet (invalidate st txns).1.loanScheme tx.identifier = histHead st tx.identifier) := by
  intro txns
  induction txns with
  | nil =>
    intro st _ _ _ _ _
    exact ⟨rfl, rfl, fun k _ => ⟨rfl, rfl⟩, fun tx htx => absurd htx (List.not_mem_nil tx)⟩
  | cons tx rest ih =>
    intro st hwfL hwfH hnd hcur hhist
    obtain ⟨cur, hc⟩ := Option.isSome_iff_exists.mp (hcur tx (List.mem_cons_self _ _))
    obtain ⟨prev, hh⟩ := Option.isSome_iff_exists.mp (hhist tx (List.mem_cons_self _ _))
    have hcur_id : cur.id = tx.identifier := get_wfRec_id _ _ _ hwfL hc
    have hprev_id : prev.id = tx.identifier := histHead_wf_id st _ prev hwfH hh
    have hstep := invalidateTx_ok st tx cur prev hc hh
    set st1 : IndexerState :=
      { st with
          deferred := putRecord st.deferred cur
          loanScheme := putRecord st.loanScheme prev } with hst1
    have hrun : invalidate st (tx :: rest) = invalidate st1 rest := by
      rw [invalidate, hstep]
    have hnd' : (rest.map (fun tx => tx.identifier)).Nodup := (List.nodup_cons.mp hnd).2
    have hnotin : tx.identifier ∉ rest.map (fun tx => tx.identifier) := (List.nodup_cons.mp hnd).1
    have hhistHead1 : ∀ i, histHead st1 i = histHead st i := fun i => rfl
    have hget1 : ∀ k, ¬ k = tx.identifier →
        tableGet st1.loanScheme k = tableGet st.loanScheme k ∧
        tableGet st1.deferred k = tableGet st.deferred k := by
      intro k hk
      constructor
      · show tableGet (putRecord st.loanScheme prev) k = _
        rw [tableGet_putRecord, if_neg (by rw [hprev_id]; exact fun h => hk h.symm)]
      · show tableGet (putRecord st.deferred cur) k = _
        rw [tableGet_putRecord, if_neg (by rw [hcur_id]; exact fun h => hk h.symm)]
    have hwfL1 : wfRecTable st1.loanScheme := wfRecTable_putRecord _ _ hwfL
    have hwfH1 : wfHistTable st1.history := hwfH
    have hcur1 : ∀ tx' ∈ rest, (tableGet st1.loanScheme tx'.identifier).isSome := by
      intro tx' htx'
      have hne : ¬ tx'.identifier = tx.identifier := by
        intro h
        exact hnotin (h ▸ List.mem_map_of_mem (fun t => t.identifier) htx')
      rw [(hget1 tx'.identifier hne).1]
      exact hcur tx' (List.mem_cons_of_mem _ htx')
    have hhist1 : ∀ tx' ∈ rest, (histHead st1 tx'.identifier).isSome := by
      intro tx' htx'
      rw [hhistHead1]
      exact hhist tx' (List.mem_cons_of_mem _ htx')
    obtain ⟨hok, hhisteq, huntouched, hrolled⟩ := ih st1 hwfL1 hwfH1 hnd' hcur1 hhist1
    rw [hrun]
    refine ⟨hok, hhisteq, ?_, ?_⟩
    · intro k hk
      rw [List.map_cons, List.mem_cons] at hk
      push_neg at hk
      obtain ⟨hk1, hk2⟩ := hk
      obtain ⟨h1, h2⟩ := huntouched k hk2
      obtain ⟨g1, g2⟩ := hget1 k hk1
      exact ⟨h1.trans g1, h2.trans g2⟩
    · intro tx' htx'
      rcases List.mem_cons.mp htx' with heq | hmem
      · subst heq
        obtain ⟨h1, h2⟩ := huntouched tx'.identifier hnotin
        constructor
        · rw [h2]
          show tableGet (putRecord st.deferred cur) _ = _
          rw [tableGet_putRecord, if_pos hcur_id, hc]
        · rw [h1]
          show tableGet (putRecord st.loanScheme prev) _ = _
          rw [tableGet_putRecord, if_pos hprev_id, hh]
      · have hne : ¬ tx'.identifier = tx.identifier := by
          intro h
          exact hnotin (h ▸ List.mem_map_of_mem (fun t => t.identifier) hmem)
        obtain ⟨r1, r2⟩ := hrolled tx' hmem
        constructor
        · rw [r1, (hget1 tx'.identifier hne).1]
        · rw [r2, hhistHead1]

theorem invalidateTx_ok_inv (st : IndexerState) (tx : LoanSchemeDfTx) (st1 : IndexerState)
    (h : invalidateTx st tx = (st1, none))
    (hwfL : wfRecTable st.loanScheme) (hwfH : wfHistTable st.history) :
    st1.history = st.history ∧ wfRecTable st1.loanScheme ∧
    (∀ k, tableGet st1.loanScheme k = none ↔ tableGet st.loanScheme k = none) := by
  cases hc : tableGet st.loanScheme tx.identifier with
  | none =>
    rw [invalidateTx_fail_cur st tx hc] at h
    simp at h
  | some cur =>
    cases hh : histHead st tx.identifier with
    | none =>
      rw [invalidateTx_fail_hist st tx cur hc hh] at h
      simp at h
    | some prev =>
      rw [invalidateTx_ok st tx cur prev hc hh] at h
      have hprev_id : prev.id = tx.identifier := histHead_wf_id st _ prev hwfH hh
      simp only [Prod.mk.injEq, and_true] at h
      subst h
      refine ⟨rfl, wfRecTable_putRecord _ _ hwfL, ?_⟩
      intro k
      show tableGet (putRecord st.loanScheme prev) k = none ↔ _
      rw [tableGet_putRecord]
      by_cases hpk : prev.id = k
      · rw [if_pos hpk]
        have hk : k = tx.identifier := hpk ▸ hprev_id
        constructor
        · intro hx; cases hx
        · intro hx; rw [hk, hc] at hx; cases hx
      · rw [if_neg hpk]
  

theorem invalidateTx_fail_iff (st : IndexerState) (tx : LoanSchemeDfTx) :
    (invalidateTx st tx).2 ≠ none ↔
      (tableGet st.loanScheme tx.identifier = none ∨ histHead st tx.identifier = none) := by
  cases hc : tableGet st.loanScheme tx.identifier with
  | none =>
    rw [invalidateTx_fail_cur st tx hc]
    simp
  | some cur =>
    cases hh : histHead st tx.identifier with
    | none =>
      rw [invalidateTx_fail_hist st tx cur hc hh]
      simp [hc]
    | some prev =>
      rw [invalidateTx_ok st tx cur prev hc hh]
      simp [hc, hh]

/-- Claim C3: `invalidate` raises an error that propagates (instead of
silently skipping) if and only if some transaction in the block has its
scheme's current LoanScheme record or its most recent history record
missing. -/
theorem invalidate_error_iff_missing (st : IndexerState) (txns : List LoanSchemeDfTx)
    (hwfL : wfRecTable st.loanScheme) (hwfH : wfHistTable st.history) :
    (invalidate st txns).2 ≠ none ↔
      ∃ tx ∈ txns, tableGet st.loanScheme tx.identifier = none ∨
        histHead st tx.identifier = none := by
  induction txns generalizing st with
  | nil => simp [invalidate]
  | cons tx rest ih =>
    rcases hstep : invalidateTx st tx with ⟨st1, out⟩
    cases out with
    | some e =>
      have hrun : invalidate st (tx :: rest) = (st1, some e) := by
        rw [invalidate, hstep]
      rw [hrun]
      constructor
      · intro _
        have hfail : (invalidateTx st tx).2 ≠ none := by rw [hstep]; simp
        exact ⟨tx, List.mem_cons_self _ _, (invalidateTx_fail_iff st tx).mp hfail⟩
      · intro _
        simp
    | none =>
      have hrun : invalidate st (tx :: rest) = invalidate st1 rest := by
        rw [invalidate, hstep]
      obtain ⟨hhisteq, hwfL1, hpres⟩ := invalidateTx_ok_inv st tx st1 hstep hwfL hwfH
      have hwfH1 : wfHistTable st1.history := by rw [hhisteq]; exact hwfH
      have hhh : ∀ i, histHead st1 i = histHead st i := by
        intro i
        rw [histHead, histHead, hhisteq]
      have hsucc : ¬ (tableGet st.loanScheme tx.identifier = none ∨
          histHead st tx.identifier = none) := by
        intro hbad
        have hbad2 : (invalidateTx st tx).2 ≠ none := (invalidateTx_fail_iff st tx).mpr hbad
        rw [hstep] at hbad2
        exact hbad2 rfl
      rw [hrun, ih st1 hwfL1 hwfH1]
      constructor
      · rintro ⟨tx', htx', hm⟩
        refine ⟨tx', List.mem_cons_of_mem _ htx', ?_⟩
        rcases hm with hm | hm
        · exact Or.inl ((hpres tx'.identifier).mp hm)
        · exact Or.inr (by rw [← hhh]; exact hm)
      · rintro ⟨tx', htx', hm⟩
        rcases List.mem_cons.mp htx' with heq | hmem
        · subst heq
          exact absurd hm hsucc
        · refine ⟨tx', hmem, ?_⟩
          rcases hm with hm | hm
          · exact Or.inl ((hpres tx'.identifier).mpr hm)
          · exact Or.inr (by rw [hhh]; exact hm)

/-- A concrete `CreateLoanScheme` transaction for scheme "A". -/
def wtx : LoanSchemeDfTx :=
  { ratio := 100, rate := "2.5", identifier := "A", update := "0" }

/-- Witness for C3 at a concrete input: with an empty LoanScheme table,
rolling back a transaction for scheme "A" raises an error. -/
theorem invalidate_error_iff_missing_witness :
    (invalidate ⟨[], [], []⟩ [wtx]).2 ≠ none := by
  exact (invalidate_error_iff_missing ⟨[], [], []⟩ [wtx] (by decide) (by decide)).mpr
    ⟨wtx, List.mem_cons_self _ _, Or.inl rfl⟩

/-- Claim C10: in `invalidate`'s per-transaction body, both lookups
complete before either write is issued, so when a `NotFoundIndexerError`
is raised for a transaction the state is exactly the input state —
neither the DeferredLoanScheme table nor the LoanScheme table has been
modified for that transaction — and the error names the missing
LoanScheme or LoanSchemeHistory record. -/
theorem invalidateTx_error_no_writes (st : IndexerState) (tx : LoanSchemeDfTx)
    (e : IndexerErr) (h : (invalidateTx st tx).2 = some e) :
    (invalidateTx st tx).1 = st ∧
    (e = .notFound "index" "LoanScheme" tx.identifier ∨
     e = .notFound "index" "LoanSchemeHistory" tx.identifier) := by
  cases hc : tableGet st.loanScheme tx.identifier with
  | none =>
    rw [invalidateTx_fail_cur st tx hc] at h ⊢
    exact ⟨rfl, Or.inl (Option.some_injective _ h).symm⟩
  | some cur =>
    cases hh : histHead st tx.identifier with
    | none =>
      rw [invalidateTx_fail_hist st tx cur hc hh] at h ⊢
      exact ⟨rfl, Or.inr (Option.some_injective _ h).symm⟩
    | some prev =>
      rw [invalidateTx_ok st tx cur prev hc hh] at h
      cases h

/-- Witness for C10 at a concrete input: failing to roll back "A" on an
empty state leaves the state untouched. -/
theorem invalidateTx_error_no_writes_witness :
    (invalidateTx ⟨[], [], []⟩ wtx).1 = (⟨[], [], []⟩ : IndexerState) :=
  (invalidateTx_error_no_writes ⟨[], [], []⟩ wtx
    (.notFound "index" "LoanScheme" "A") (by decide)).1

/-- The current ("previously deferred") record for scheme "A". -/
def cxCur : LoanSchemeRecord :=
  { id := "A", ratio := 150, rate := "2.5", activateAfterBlock := 5 }

/-- The most recent history record for scheme "A" (differs from `cxCur`). -/
def cxPrev : LoanSchemeRecord :=
  { id := "A", ratio := 100, rate := "1.5", activateAfterBlock := 0 }

/-- A state in which scheme "A" has current record `cxCur` and history
head `cxPrev`. -/
def cxState2 : IndexerState :=
  { loanScheme := [("A", cxCur)], deferred := [], history := [("A", [cxPrev])] }

/-- Claim C2 counterexample: rolling back a transaction for scheme "A",
the record re-inserted into the DeferredLoanScheme table is the current
record `cxCur`, not the history record `cxPrev` that the claim says is
re-inserted there, and the record restored as the now-current LoanScheme
is the history record `cxPrev`, not the superseded current record `cxCur`
that the claim says is restored. -/
theorem invalidate_restoration_counterexample :
    (invalidate cxState2 [wtx]).2 = none ∧
    tableGet (invalidate cxState2 [wtx]).1.deferred "A" = some cxCur ∧
    tableGet (invalidate cxState2 [wtx]).1.loanScheme "A" = some cxPrev ∧
    cxCur ≠ cxPrev := by decide

/-- Claim C2 (amended): for every transaction rolled back by
`invalidate`, the CURRENT LoanScheme record (the previously deferred
scheme) is re-inserted as the DeferredLoanScheme entry, and the scheme's
most recent HISTORY record is restored as the now-current
LoanScheme. -/
theorem invalidateTx_restores (st : IndexerState) (tx : LoanSchemeDfTx)
    (cur prev : LoanSchemeRecord)
    (hwfL : wfRecTable st.loanScheme) (hwfH : wfHistTable st.history)
    (hc : tableGet st.loanScheme tx.identifier = some cur)
    (hh : histHead st tx.identifier = some prev) :
    (invalidateTx st tx).2 = none ∧
    tableGet (invalidateTx st tx).1.deferred tx.identifier = some cur ∧
    tableGet (invalidateTx st tx).1.loanScheme tx.identifier = some prev := by
  rw [invalidateTx_ok st tx cur prev hc hh]
  refine ⟨rfl, ?_, ?_⟩
  · show tableGet (putRecord st.deferred cur) _ = _
    rw [tableGet_putRecord, if_pos (get_wfRec_id _ _ _ hwfL hc)]
  · show tableGet (putRecord st.loanScheme prev) _ = _
    rw [tableGet_putRecord, if_pos (histHead_wf_id st _ prev hwfH hh)]

/-- Witness for the amended C2 at a concrete input. -/
theorem invalidateTx_restores_witness :
    (invalidateTx cxState2 wtx).2 = none ∧
    tableGet (invalidateTx cxState2 wtx).1.deferred "A" = some cxCur ∧
    tableGet (invalidateTx cxState2 wtx).1.loanScheme "A" = some cxPrev :=
  invalidateTx_restores cxState2 wtx cxCur cxPrev
    (by decide) (by decide) (by decide) (by decide)

/-! ## The scanned snapshot of the deferred table -/

theorem mem_deferredQuery_pair_take (st : IndexerState) (n : Nat) (e : LoanSchemeRecord)
    (he : e ∈ deferredQuery st n) (hwf : wfRecTable st.deferred) :
    (e.id, e) ∈ st.deferred.take n := by
  rw [deferredQuery] at he
  obtain ⟨p, hp, hpe⟩ := List.mem_map.mp he
  obtain ⟨a, b⟩ := p
  dsimp at hpe
  have hk : a = b.id := hwf (a, b) (List.take_subset n st.deferred hp)
  rw [← hpe, ← hk]
  exact hp

theorem mem_deferredQuery_pair (st : IndexerState) (n : Nat) (e : LoanSchemeRecord)
    (he : e ∈ deferredQuery st n) (hwf : wfRecTable st.deferred) :
    (e.id, e) ∈ st.deferred :=
  List.take_subset n st.deferred (mem_deferredQuery_pair_take st n e he hwf)

theorem tableGet_deferredQuery (st : IndexerState) (n : Nat) (e : LoanSchemeRecord)
    (he : e ∈ deferredQuery st n) (hwfr : wfRecTable st.deferred)
    (hwfk : wfKeys st.deferred) : tableGet st.deferred e.id = some e :=
  tableGet_of_mem_nodup st.deferred (e.id, e) (mem_deferredQuery_pair st n e he hwfr) hwfk

theorem deferredQuery_id_inj (st : IndexerState) (n : Nat)
    (hwfr : wfRecTable st.deferred) (hwfk : wfKeys st.deferred)
    (x y : LoanSchemeRecord) (hx : x ∈ deferredQuery st n) (hy : y ∈ deferredQuery st n)
    (hxy : x.id = y.id) : x = y := by
  have h1 := mem_deferredQuery_pair st n x hx hwfr
  have h2 := mem_deferredQuery_pair st n y hy hwfr
  have h3 := mem_key_inj st.deferred hwfk (x.id, x) (y.id, y) h1 h2 hxy
  exact congrArg Prod.snd h3

theorem deferredQuery_filter_ids_nodup (st : IndexerState) (n : Nat)
    (p : LoanSchemeRecord → Bool)
    (hwfr : wfRecTable st.deferred) (hwfk : wfKeys st.deferred) :
    (((deferredQuery st n).filter p).map (fun e => e.id)).Nodup := by
  have h1 : ((st.deferred.take n).map Prod.fst).Nodup := by
    rw [List.map_take]
    exact List.Nodup.sublist (List.take_sublist n _) hwfk
  have h2 : (deferredQuery st n).map (fun e => e.id) = (st.deferred.take n).map Prod.fst := by
    rw [deferredQuery, List.map_map]
    apply List.map_congr_left
    intro q hq
    exact (hwfr q (List.take_subset n st.deferred hq)).symm
  have h3 : List.Sublist (((deferredQuery st n).filter p).map (fun e => e.id))
      ((deferredQuery st n).map (fun e => e.id)) :=
    List.Sublist.map _ (List.filter_sublist _)
  exact List.Nodup.sublist h3 (h2 ▸ h1)

/-- A deferred record for scheme "A" due at height 5. -/
def cxRecA : LoanSchemeRecord :=
  { id := "A", ratio := 150, rate := "2.5", activateAfterBlock := 5 }

/-- A state holding only the deferred record `cxRecA`. -/
def cxState1 : IndexerState :=
  { loanScheme := [], deferred := [("A", cxRecA)], history := [] }

/-- Claim C1 counterexample: a block at height 5 containing no matching
transactions.  `index` promotes the due deferred entry, and `invalidate`
over the block's (empty) matching-transaction list does not undo it, so
the DeferredLoanScheme table does not return to its pre-block
contents. -/
theorem roundtrip_counterexample :
    (invalidate (index 5 cxState1) []).2 = none ∧
    tableGet (invalidate (index 5 cxState1) []).1.deferred "A" = none ∧
    tableGet cxState1.deferred "A" = some cxRecA := by decide

/-- Claim C1 (amended): forward-index followed by rollback on the same
block restores the LoanScheme and DeferredLoanScheme tables to their
exact pre-block contents, PROVIDED the block's matching transactions
correspond exactly (by scheme id, in scan order) to the deferred entries
promoted by the forward pass, and each promoted scheme's most recent
history record equals its pre-block current LoanScheme record.  (Without
that pairing — e.g. a block with a due deferred entry and no matching
transaction — the round trip fails, as `roundtrip_counterexample`
shows.) -/
theorem index_invalidate_roundtrip (st : IndexerState) (h : Nat)
    (txns : List LoanSchemeDfTx) (hwf : WFState st)
    (hids : txns.map (fun tx => tx.identifier) =
      ((deferredQuery st 100).filter
        (fun e => decide (e.activateAfterBlock ≤ h))).map (fun e => e.id))
    (hcons : ∀ e ∈ (deferredQuery st 100).filter
        (fun e => decide (e.activateAfterBlock ≤ h)),
      (tableGet st.loanScheme e.id).isSome ∧
      histHead st e.id = tableGet st.loanScheme e.id) :
    (invalidate (index h st) txns).2 = none ∧
    (∀ k, tableGet (invalidate (index h st) txns).1.loanScheme k =
            tableGet st.loanScheme k ∧
          tableGet (invalidate (index h st) txns).1.deferred k =
            tableGet st.deferred k) := by
  have hwf1 : WFState (index h st) := index_WF h st hwf
  have hists : ∀ i, histHead (index h st) i = histHead st i := by
    intro i
    rw [histHead, histHead, index_history]
  have hprom : ∀ e ∈ (deferredQuery st 100).filter
      (fun e => decide (e.activateAfterBlock ≤ h)),
      tableGet (index h st).loanScheme e.id = some e ∧
      tableGet (index h st).deferred e.id = none := by
    intro e hedue
    have hesnap : e ∈ deferredQuery st 100 := List.mem_of_mem_filter hedue
    have hduee : e.activateAfterBlock ≤ h :=
      of_decide_eq_true (List.mem_filter.mp hedue).2
    rw [index]
    exact idx_fold_promote h e.id e _ st hesnap rfl hduee
      (fun x hx hxk =>
        deferredQuery_id_inj st 100 hwf.deferredRec hwf.deferredKeys x e hx hesnap hxk)
  have htx_e : ∀ tx ∈ txns, ∃ e, e ∈ (deferredQuery st 100).filter
      (fun e => decide (e.activateAfterBlock ≤ h)) ∧ e.id = tx.identifier := by
    intro tx htx
    have h1 : tx.identifier ∈ txns.map (fun t => t.identifier) :=
      List.mem_map_of_mem _ htx
    rw [hids] at h1
    obtain ⟨e, he, heid⟩ := List.mem_map.mp h1
    exact ⟨e, he, heid⟩
  have hnd : (txns.map (fun t => t.identifier)).Nodup := by
    rw [hids]
    exact deferredQuery_filter_ids_nodup st 100 _ hwf.deferredRec hwf.deferredKeys
  have hcur1 : ∀ tx ∈ txns, (tableGet (index h st).loanScheme tx.identifier).isSome := by
    intro tx htx
    obtain ⟨e, he, heid⟩ := htx_e tx htx
    rw [← heid, (hprom e he).1]
    rfl
  have hhist1 : ∀ tx ∈ txns, (histHead (index h st) tx.identifier).isSome := by
    intro tx htx
    obtain ⟨e, he, heid⟩ := htx_e tx htx
    rw [hists, ← heid, (hcons e he).2]
    exact (hcons e he).1
  obtain ⟨hok, hhisteq, huntouched, hrolled⟩ :=
    inv_run_ok txns (index h st) hwf1.loan hwf1.hist hnd hcur1 hhist1
  refine ⟨hok, ?_⟩
  intro k
  by_cases hk : k ∈ txns.map (fun t => t.identifier)
  · obtain ⟨tx, htx, htxid⟩ := List.mem_map.mp hk
    obtain ⟨e, he, heid⟩ := htx_e tx htx
    have hek : e.id = k := heid.trans htxid
    obtain ⟨hr1, hr2⟩ := hrolled tx htx
    constructor
    · calc tableGet (invalidate (index h st) txns).1.loanScheme k
          = histHead (index h st) k := by rw [← htxid]; exact hr2
        _ = histHead st k := hists k
        _ = tableGet st.loanScheme k := by rw [← hek]; exact (hcons e he).2
    · calc tableGet (invalidate (index h st) txns).1.deferred k
          = tableGet (index h st).loanScheme k := by rw [← htxid]; exact hr1
        _ = some e := by rw [← hek]; exact (hprom e he).1
        _ = tableGet st.deferred k := by
            rw [← hek]
            exact (tableGet_deferredQuery st 100 e (List.mem_of_mem_filter he)
              hwf.deferredRec hwf.deferredKeys).symm
  · obtain ⟨hu1, hu2⟩ := huntouched k hk
    have hidx : ∀ e ∈ deferredQuery st 100, e.activateAfterBlock ≤ h → ¬ e.id = k := by
      intro e he hdue hek
      apply hk
      rw [hids]
      exact List.mem_map.mpr
        ⟨e, List.mem_filter.mpr ⟨he, decide_eq_true hdue⟩, hek⟩
    have hi : tableGet (index h st).loanScheme k = tableGet st.loanScheme k ∧
        tableGet (index h st).deferred k = tableGet st.deferred k := by
      rw [index]
      exact idx_fold_untouched h k _ st hidx
    exact ⟨hu1.trans hi.1, hu2.trans hi.2⟩

/-- A pre-block current (and history) record for scheme "A". -/
def wRecC : LoanSchemeRecord :=
  { id := "A", ratio := 100, rate := "1.5", activateAfterBlock := 0 }

/-- A round-trip-consistent state: scheme "A" has deferred record
`cxRecA`, current record `wRecC`, and history head `wRecC`. -/
def wState : IndexerState :=
  { loanScheme := [("A", wRecC)]
    deferred := [("A", cxRecA)]
    history := [("A", [wRecC])] }

/-- Witness for the amended C1 at a concrete input. -/
theorem index_invalidate_roundtrip_witness :
    (invalidate (index 5 wState) [wtx]).2 = none ∧
    tableGet (invalidate (index 5 wState) [wtx]).1.loanScheme "A" =
      tableGet wState.loanScheme "A" ∧
    tableGet (invalidate (index 5 wState) [wtx]).1.deferred "A" =
      tableGet wState.deferred "A" := by
  have h := index_invalidate_roundtrip wState 5 [wtx]
    ⟨by decide, by decide, by decide, by decide⟩ (by decide) (by decide)
  exact ⟨h.1, (h.2 "A").1, (h.2 "A").2⟩

/-- Claim C4: a deferred entry scanned by the forward pass with
`activateAfterBlock = H` is not promoted at block `H - 1` (it stays in
the deferred table and the current record is untouched), is promoted at
block `H` (written into the LoanScheme table and deleted from the
deferred table), and remains promoted after the scan at `H + 1`. -/
theorem activation_boundary (st : IndexerState) (H : Nat) (e : LoanSchemeRecord)
    (hwf : WFState st) (he : e ∈ deferredQuery st 100)
    (hH : e.activateAfterBlock = H) (h1 : 1 ≤ H) :
    (tableGet (index (H - 1) st).deferred e.id = some e ∧
     tableGet (index (H - 1) st).loanScheme e.id = tableGet st.loanScheme e.id) ∧
    (tableGet (index H st).loanScheme e.id = some e ∧
     tableGet (index H st).deferred e.id = none) ∧
    (tableGet (index (H + 1) (index H st)).loanScheme e.id = some e ∧
     tableGet (index (H + 1) (index H st)).deferred e.id = none) := by
  have huniq : ∀ x ∈ deferredQuery st 100, x.id = e.id → x = e := fun x hx hxk =>
    deferredQuery_id_inj st 100 hwf.deferredRec hwf.deferredKeys x e hx he hxk
  have hpart2 : tableGet (index H st).loanScheme e.id = some e ∧
      tableGet (index H st).deferred e.id = none := by
    rw [index]
    exact idx_fold_promote H e.id e _ st he rfl (le_of_eq hH) huniq
  refine ⟨?_, hpart2, ?_⟩
  · have hidx : ∀ x ∈ deferredQuery st 100,
        x.activateAfterBlock ≤ H - 1 → ¬ x.id = e.id := by
      intro x hx hxdue hxe
      have hxeq : x = e := huniq x hx hxe
      subst hxeq
      rw [hH] at hxdue
      omega
    have hu : tableGet (index (H - 1) st).loanScheme e.id = tableGet st.loanScheme e.id ∧
        tableGet (index (H - 1) st).deferred e.id = tableGet st.deferred e.id := by
      rw [index]
      exact idx_fold_untouched (H - 1) e.id _ st hidx
    exact ⟨hu.2.trans (tableGet_deferredQuery st 100 e he hwf.deferredRec hwf.deferredKeys),
      hu.1⟩
  · have hwf2 : WFState (index H st) := index_WF H st hwf
    have hidx2 : ∀ x ∈ deferredQuery (index H st) 100,
        x.activateAfterBlock ≤ H + 1 → ¬ x.id = e.id := by
      intro x hx _ hxe
      have hpair := mem_deferredQuery_pair (index H st) 100 x hx hwf2.deferredRec
      exact not_mem_of_tableGet_none (index H st).deferred e.id hpart2.2
        (x.id, x) (hxe ▸ hpair) hxe
    have hu : tableGet (index (H + 1) (index H st)).loanScheme e.id =
          tableGet (index H st).loanScheme e.id ∧
        tableGet (index (H + 1) (index H st)).deferred e.id =
          tableGet (index H st).deferred e.id := by
      rw [index]
      exact idx_fold_untouched (H + 1) e.id _ (index H st) hidx2
    exact ⟨hu.1.trans hpart2.1, hu.2.trans hpart2.2⟩

/-- Witness for C4 at a concrete input: `cxRecA` (due at 5) is still
deferred at height 4, current at height 5, and still current at 6. -/
theorem activation_boundary_witness :
    tableGet (index 4 cxState1).deferred "A" = some cxRecA ∧
    tableGet (index 5 cxState1).loanScheme "A" = some cxRecA ∧
    tableGet (index 6 (index 5 cxState1)).loanScheme "A" = some cxRecA := by
  have h := activation_boundary cxState1 5 cxRecA
    ⟨by decide, by decide, by decide, by decide⟩ (by decide) (by decide) (by decide)
  exact ⟨h.1.1, h.2.1.1, h.2.2.1⟩

/-- The i-th of 101 deferred entries, all due at height 5, with distinct
one-character ids. -/
def c5entry (i : Nat) : LoanSchemeRecord :=
  { id := String.singleton (Char.ofNat (48 + i))
    ratio := 1
    rate := "1"
    activateAfterBlock := 5 }

/-- A state whose deferred table holds 101 simultaneously-due entries. -/
def c5state : IndexerState :=
  { loanScheme := []
    deferred := (List.range 101).map (fun i => ((c5entry i).id, c5entry i))
    history := [] }

set_option maxRecDepth 100000 in
/-- Claim C5: the forward pass scans at most 100 deferred entries per
block — any entry beyond the first 100 in store order is left in the
deferred table untouched — and, concretely, with 101 simultaneously-due
entries at block 9 exactly 100 are promoted (the LoanScheme table gains
100 records and only the 101st entry stays deferred, unpromoted) while
the remaining entry is promoted at the next block that scans it. -/
theorem batch_cap :
    (∀ (st : IndexerState) (h : Nat) (k : String) (e : LoanSchemeRecord),
      wfRecTable st.deferred → wfKeys st.deferred → (k, e) ∈ st.deferred.drop 100 →
      tableGet (index h st).deferred k = some e ∧
      tableGet (index h st).loanScheme k = tableGet st.loanScheme k) ∧
    ((index 9 c5state).loanScheme.length = 100 ∧
     (index 9 c5state).deferred = [((c5entry 100).id, c5entry 100)] ∧
     tableGet (index 9 c5state).loanScheme (c5entry 100).id = none ∧
     (index 10 (index 9 c5state)).deferred = [] ∧
     tableGet (index 10 (index 9 c5state)).loanScheme (c5entry 100).id =
       some (c5entry 100)) := by
  constructor
  · intro st h k e hwfr hwfk hmem
    have hmem_full : (k, e) ∈ st.deferred := List.drop_subset 100 st.deferred hmem
    have hkey : k = e.id := hwfr (k, e) hmem_full
    have hsnap : ∀ x ∈ deferredQuery st 100, ¬ x.id = k := by
      intro x hx hxk
      have hp := mem_deferredQuery_pair_take st 100 x hx hwfr
      have hsplit : (st.deferred.map Prod.fst).Nodup := hwfk
      rw [← List.take_append_drop 100 st.deferred, List.map_append] at hsplit
      have hdisj := (List.nodup_append.mp hsplit).2.2
      have hx1 : x.id ∈ (st.deferred.take 100).map Prod.fst :=
        List.mem_map_of_mem Prod.fst hp
      rw [hxk] at hx1
      exact hdisj hx1 (List.mem_map_of_mem Prod.fst hmem)
    have hu : tableGet (index h st).loanScheme k = tableGet st.loanScheme k ∧
        tableGet (index h st).deferred k = tableGet st.deferred k := by
      rw [index]
      exact idx_fold_untouched h k _ st (fun x hx _ => hsnap x hx)
    have hgete : tableGet st.deferred k = some e := by
      have := tableGet_of_mem_nodup st.deferred (k, e) hmem_full hwfk
      exact this
    exact ⟨hu.2.trans hgete, hu.1⟩
  · decide

set_option maxRecDepth 100000 in
/-- Witness for the universal half of C5 at a concrete input: the 101st
simultaneously-due entry survives the block-9 scan untouched. -/
theorem batch_cap_witness :
    tableGet (index 9 c5state).deferred (c5entry 100).id = some (c5entry 100) :=
  (batch_cap.1 c5state 9 (c5entry 100).id (c5entry 100)
    (by decide) (by decide) (by decide)).1

/-! ## Vault read-model builder (`LoanVaultService`) -/

/-- A JavaScript string-or-`undefined` value. -/
abbrev JsStr : Type := Option String

/-- HTTP exceptions raised by the service layer (`NotFoundException`,
`BadRequestException`, `ConflictException`). -/
inductive HttpException where
  | notFound (message : String)
  | badRequest (message : String)
  | conflict (message : String)
deriving DecidableEq

/-- An error propagating out of the service code: a node `RpcApiError`
(carrying its `payload.message`), a JavaScript `TypeError` (reading a
property of `undefined`), or a thrown HTTP exception. -/
inductive Thrown where
  | rpcApi (message : String)
  | typeError
  | httpEx (e : HttpException)
deriving DecidableEq

/-- The token metadata the mapper reads (`TokenInfo`, condensed to the
fields this service consumes). -/
structure TokenInfo where
  symbol : String
  symbolKey : String
  name : String
deriving DecidableEq

/-- An active-price record (opaque payload; only its presence matters
here). -/
structure ActivePrice where
  id : String
deriving DecidableEq

/-- The output token-amount view. -/
structure LoanVaultTokenAmount where
  id : String
  amount : String
  symbol : String
  symbolKey : String
  name : String
  displaySymbol : String
  activePrice : Option ActivePrice
deriving DecidableEq

/-- The node's vault state enumeration. -/
inductive VaultState where
  | unknown
  | active
  | frozen
  | inLiquidation
  | mayLiquidate
deriving DecidableEq

/-- The API's vault state enumeration. -/
inductive LoanVaultState where
  | unknown
  | active
  | frozen
  | inLiquidation
  | mayLiquidate
deriving DecidableEq

/-- The `{...loanScheme, default: boolean}` spread in the vault views. -/
structure LoanSchemeWithDefault where
  scheme : LoanSchemeRecord
  default : Bool
deriving DecidableEq

/-- A raw liquidation batch from the node (`VaultLiquidationBatch`);
`loan` is a single `"<amount>@<symbol>"` string, absent when the source
supplies zero loan entries. -/
structure VaultLiquidationBatch where
  index : Nat
  collaterals : Option (List JsStr)
  loan : JsStr
deriving DecidableEq

/-- A raw active vault from the node (`VaultActive`).  The BigNumber
ratio/value fields are modelled by their full-precision decimal-string
representation, with `.toFixed()` the identity on it. -/
structure VaultActive where
  vaultId : String
  loanSchemeId : String
  ownerAddress : String
  state : VaultState
  informativeRatio : String
  collateralRatio : String
  collateralValue : String
  loanValue : String
  interestValue : String
  collateralAmounts : Option (List JsStr)
  loanAmounts : Option (List JsStr)
  interestAmounts : Option (List JsStr)
deriving DecidableEq

/-- A raw in-liquidation vault from the node (`VaultLiquidation`). -/
structure VaultLiquidation where
  vaultId : String
  loanSchemeId : String
  ownerAddress : String
  state : VaultState
  batchCount : Nat
  liquidationHeight : Nat
  liquidationPenalty : String
  batches : List VaultLiquidationBatch
deriving DecidableEq

/-- A raw vault: exactly one of the two shapes, discriminated by the
`state` the node reports (the source routes on
`details.state === VaultState.IN_LIQUIDATION` and casts; for well-typed
node responses the liquidation shape and that state coincide). -/
inductive VaultRaw where
  | active (v : VaultActive)
  | liquidation (v : VaultLiquidation)
deriving DecidableEq

/-- The output batch view; `loan` is the `[0]` element of a mapped
list, hence possibly absent. -/
structure LoanVaultLiquidationBatch where
  index : Nat
  collaterals : List LoanVaultTokenAmount
  loan : Option LoanVaultTokenAmount
deriving DecidableEq

/-- The `LoanVaultActive` output view. -/
structure LoanVaultActive where
  vaultId : String
  loanScheme : LoanSchemeWithDefault
  ownerAddress : String
  state : LoanVaultState
  informativeRatio : String
  collateralRatio : String
  collateralValue : String
  loanValue : String
  interestValue : String
  collateralAmounts : List LoanVaultTokenAmount
  loanAmounts : List LoanVaultTokenAmount
  interestAmounts : List LoanVaultTokenAmount
deriving DecidableEq

/-- The `LoanVaultLiquidated` output view. -/
structure LoanVaultLiquidated where
  vaultId : String
  loanScheme : LoanSchemeWithDefault
  ownerAddress : String
  state : LoanVaultState
  batchCount : Nat
  liquidationHeight : Nat
  liquidationPenalty : String
  batches : List LoanVaultLiquidationBatch
deriving DecidableEq

/-- A mapped vault view: active or liquidated. -/
inductive LoanVault where
  | active (v : LoanVaultActive)
  | liquidated (v : LoanVaultLiquidated)
deriving DecidableEq

/-- The service's external read-only collaborators: the LoanScheme
mapper, the default-scheme mapper (its scheme id), the token-metadata
cache (per symbol, the single `{id: info}` entry of the batch result,
as `(Object.keys(result)[0], Object.values(result)[0])`), the
active-price mapper's `query`, and `parseDisplaySymbol` from the token
controller (external to the provided sources). -/
structure VaultEnv where
  loanSchemes : Table LoanSchemeRecord
  defaultSchemeId : Option String
  tokenInfoBySymbol : String → Option (String × TokenInfo)
  activePriceQuery : String → Nat → List ActivePrice
  parseDisplaySymbol : TokenInfo → String

/-- JavaScript property-key coercion: an `undefined` key reads the
property named "undefined". -/
def jsKey (s : JsStr) : String := s.getD "undefined"

/-- Split a character list at every occurrence of `sep`; the result is
always non-empty. -/
def splitOnCharAux (sep : Char) : List Char → List (List Char)
  | [] => [[]]
  | c :: rest =>
    match splitOnCharAux sep rest with
    | h :: t => if c = sep then [] :: h :: t else (c :: h) :: t
    | [] => [[]]

/-- JavaScript `String.prototype.split(sep)` for a one-character separator:
`''.split('@') = ['']`, `'a@b'.split('@') = ['a', 'b']`. -/
def jsSplitChar (sep : Char) (s : String) : List String :=
  (splitOnCharAux sep s.toList).map List.asString

/-- The `value.split('@')` step followed by the destructuring
`[amount, symbol]`: calling `split` on `undefined` raises a TypeError;
a missing second element leaves `symbol` undefined. -/
def jsSplitAmount (v : JsStr) : Except Thrown (String × JsStr) :=
  match v with
  | none => .error .typeError
  | some s =>
    let parts := jsSplitChar '@' s
    .ok (parts.headD "", parts[1]?)

/-- One step of stable insertion with a JavaScript comparator: the
element is inserted before the first element against which the
comparator returns a negative value. -/
def insertJS {α : Type} (cmp : α → α → Int) (x : α) : List α → List α
  | [] => [x]
  | y :: ys => if cmp x y < 0 then x :: y :: ys else y :: insertJS cmp x ys

/-- JavaScript `Array.prototype.sort(cmp)` as V8 (Node's engine) performs it on
short arrays: a stable binary-insertion sort.  With a comparator that
never returns a negative value every element stays after all its
predecessors, i.e. the array is returned unchanged, matching V8's
TimSort, which sees one non-descending run. -/
def jsSortWith {α : Type} (cmp : α → α → Int) (l : List α) : List α :=
  l.foldl (fun acc x => insertJS cmp x acc) []

/-- The value of one character as a digit in the given base, if any
(`parseInt` accepts 0-9, a-z, A-Z up to the base). -/
def digitValue (base : Nat) (c : Char) : Option Nat :=
  let v :=
    if c.isDigit then some (c.toNat - 48)
    else if 'a' ≤ c ∧ c ≤ 'z' then some (c.toNat - 87)
    else if 'A' ≤ c ∧ c ≤ 'Z' then some (c.toNat - 55)
    else none
  match v with
  | some d => if d < base then some d else none
  | none => none

/-- Consume leading digits in the given base; `none` when no digit was
consumed (NaN). -/
def jsParseIntDigits (base : Nat) (acc : Option Nat) : List Char → Option Nat
  | [] => acc
  | c :: cs =>
    match digitValue base c with
    | none => acc
    | some d => jsParseIntDigits base (some (acc.getD 0 * base + d)) cs

/-- The digits of a `parseInt` input after the sign: auto-detect a hex
prefix, otherwise base 10. -/
def jsParseIntBody (cs : List Char) : Option Nat :=
  match cs with
  | c0 :: c1 :: rest =>
    if c0 = '0' ∧ (c1 = 'x' ∨ c1 = 'X') then jsParseIntDigits 16 none rest
    else jsParseIntDigits 10 none cs
  | _ => jsParseIntDigits 10 none cs

/-- A JavaScript whitespace character (the ones relevant to ASCII
input). -/
def isJsSpace (c : Char) : Bool :=
  c = Char.ofNat 32 ∨ c = Char.ofNat 9 ∨ c = Char.ofNat 10 ∨
    c = Char.ofNat 13 ∨ c = Char.ofNat 12 ∨ c = Char.ofNat 11

/-- JavaScript `Number.parseInt(s)` with no radix argument: skip leading
whitespace, read an optional sign, auto-detect a hex prefix, consume
leading digits and ignore trailing garbage.  `none` models NaN. -/
def jsParseInt (s : String) : Option Int :=
  let cs := s.toList.dropWhile isJsSpace
  match cs with
  | c :: rest =>
    if c = '-' then (jsParseIntBody rest).map (fun n => -(n : Int))
    else if c = '+' then (jsParseIntBody rest).map (fun n => (n : Int))
    else (jsParseIntBody cs).map (fun n => (n : Int))
  | [] => none

/-- JavaScript `String.prototype.substr(start[, length])` by characters, for
non-negative arguments. -/
def jsSubstr (s : String) (start : Nat) (len : Option Nat) : String :=
  match len with
  | none => (s.toList.drop start).asString
  | some n => ((s.toList.drop start).take n).asString

/-- The module-level `mapLoanVaultTokenAmount(id, tokenInfo, amount,
activePrice)`. -/
def mapLoanVaultTokenAmount (env : VaultEnv) (id : String) (tokenInfo : TokenInfo)
    (amount : String) (activePrice : Option ActivePrice) : LoanVaultTokenAmount :=
  { id := id
    amount := amount
    symbol := tokenInfo.symbol
    symbolKey := tokenInfo.symbolKey
    name := tokenInfo.name
    displaySymbol := env.parseDisplaySymbol tokenInfo
    activePrice := activePrice }

/-- The module-level `mapLoanVaultState(state)`. -/
def mapLoanVaultState : VaultState → LoanVaultState
  | .unknown => .unknown
  | .active => .active
  | .frozen => .frozen
  | .inLiquidation => .inLiquidation
  | .mayLiquidate => .mayLiquidate

namespace LoanVaultService

/-- Method `mapTokenAmounts(items)`: split each `"<amount>@<symbol>"` pair,
resolve token metadata per symbol (Conflict when unresolvable), attach
the most recent `"<symbol>-USD"` active price, and pass the result to
`.sort(a => Number.parseInt(a.id))` — a single-argument comparator whose
(ignored-second-argument) value is parsed from the FIRST element only;
per ECMAScript `SortCompare` a NaN comparator result counts as +0. -/
def mapTokenAmounts (env : VaultEnv) (items : Option (List JsStr)) :
    Except Thrown (List LoanVaultTokenAmount) :=
  match items with
  | none => .ok []
  | some items =>
    if items.length = 0 then .ok []
    else do
      let tokenAmounts ← items.mapM jsSplitAmount
      let mapped ← tokenAmounts.mapM (fun p =>
        match env.tokenInfoBySymbol (jsKey p.2) with
        | none => Except.error (.httpEx (.conflict "unable to find token"))
        | some q =>
          let activePrice := env.activePriceQuery (jsKey p.2 ++ "-USD") 1
          Except.ok (mapLoanVaultTokenAmount env q.1 q.2 p.1 activePrice[0]?))
      .ok (jsSortWith (fun a _ => (jsParseInt a.id).getD 0) mapped)

/-- Method `mapLiquidationBatches(batches)`: map each batch's collaterals, and
its single loan entry via `(await this.mapTokenAmounts([batch.loan]))[0]`. -/
def mapLiquidationBatches (env : VaultEnv) (batches : List VaultLiquidationBatch) :
    Except Thrown (List LoanVaultLiquidationBatch) :=
  if batches.length = 0 then .ok []
  else
    batches.mapM (fun batch => do
      let collaterals ← mapTokenAmounts env batch.collaterals
      let loanList ← mapTokenAmounts env (some [batch.loan])
      Except.ok { index := batch.index, collaterals := collaterals, loan := loanList[0]? })

/-- Method `mapLoanAuction(details)`. -/
def mapLoanAuction (env : VaultEnv) (data : VaultLiquidation) :
    Except Thrown LoanVaultLiquidated :=
  match tableGet env.loanSchemes data.loanSchemeId with
  | none => Except.error (.httpEx (.notFound "unable to find loan scheme"))
  | some loanScheme =>
    match env.defaultSchemeId with
    | none => Except.error (.httpEx (.notFound "Unable to find default scheme"))
    | some d => do
      let batches ← mapLiquidationBatches env data.batches
      Except.ok
        { vaultId := data.vaultId
          loanScheme := { scheme := loanScheme, default := loanScheme.id == d }
          ownerAddress := data.ownerAddress
          state := LoanVaultState.inLiquidation
          batchCount := data.batchCount
          liquidationHeight := data.liquidationHeight
          liquidationPenalty := data.liquidationPenalty
          batches := batches }

/-- Method `mapLoanVault(details)`: route in-liquidation vaults to the auction
mapper, otherwise build the active view. -/
def mapLoanVault (env : VaultEnv) (details : VaultRaw) : Except Thrown LoanVault :=
  match details with
  | .liquidation v => (mapLoanAuction env v).map LoanVault.liquidated
  | .active data =>
    match tableGet env.loanSchemes data.loanSchemeId with
    | none => Except.error (.httpEx (.notFound "unable to find loan scheme"))
    | some loanScheme =>
      match env.defaultSchemeId with
      | none => Except.error (.httpEx (.notFound "Unable to find default scheme"))
      | some d => do
        let collateralAmounts ← mapTokenAmounts env data.collateralAmounts
        let loanAmounts ← mapTokenAmounts env data.loanAmounts
        let interestAmounts ← mapTokenAmounts env data.interestAmounts
        Except.ok (LoanVault.active
          { vaultId := data.vaultId
            loanScheme := { scheme := loanScheme, default := loanScheme.id == d }
            ownerAddress := data.ownerAddress
            state := mapLoanVaultState data.state
            informativeRatio := data.informativeRatio
            collateralRatio := data.collateralRatio
            collateralValue := data.collateralValue
            loanValue := data.loanValue
            interestValue := data.interestValue
            collateralAmounts := collateralAmounts
            loanAmounts := loanAmounts
            interestAmounts := interestAmounts })

/-- An apostrophe, written via its code point. -/
def squote : String := String.singleton (Char.ofNat 39)

/-- The node's message for an unknown vault id. -/
def vaultNotFoundMsg (id : String) : String := "Vault <" ++ id ++ "> not found"

/-- The exact malformed-vault-id message the source compares against:
the node's message for the three-character id 999. -/
def vaultIdLengthMsg : String :=
  "vaultId must be of length 64 (not 3, for " ++ squote ++ "999" ++ squote ++ ")"

/-- The catch-clause test in `get`: the error is an `RpcApiError` whose
`payload.message` is the vault-not-found message for this id, or the
hard-coded length message. -/
def isVaultNotFoundErr (id : String) (err : Thrown) : Bool :=
  match err with
  | .rpcApi message => message == vaultNotFoundMsg id || message == vaultIdLengthMsg
  | _ => false

/-- The message carried by a thrown error (what `BadRequestException(err)`
preserves). -/
def thrownMessage : Thrown → String
  | .rpcApi m => m
  | .typeError => "Cannot read properties of undefined"
  | .httpEx (.notFound m) => m
  | .httpEx (.badRequest m) => m
  | .httpEx (.conflict m) => m

/-- Method `get(id)`: fetch the vault from the node and map it; in the catch
clause, translate a matching RpcApiError to `NotFoundException("Unable
to find vault")` and anything else to a `BadRequestException`
preserving the upstream error. -/
def get (env : VaultEnv) (node : String → Except Thrown VaultRaw) (id : String) :
    Except HttpException LoanVault :=
  match (do
      let vault ← node id
      mapLoanVault env vault : Except Thrown LoanVault) with
  | .ok v => .ok v
  | .error err =>
    if isVaultNotFoundErr id err then .error (.notFound "Unable to find vault")
    else .error (.badRequest (thrownMessage err))

/-- The cursor field of an auction pagination: the vault id and the
liquidation height (`none` models NaN). -/
structure AuctionPaginationStart where
  vaultId : String
  height : Option Int
deriving DecidableEq

/-- The pagination object `listAuction` sends to the node. -/
structure AuctionPagination where
  start : Option AuctionPaginationStart
  limit : Nat
deriving DecidableEq

/-- The pagination construction of `listAuction(query)`: clamp the page
size to 30; when a cursor is present, `vaultId = next.substr(0, 64)` and
`height = next.substr(64)` parsed with `parseInt`.  The source's
`height !== undefined ? parseInt(height) : 0` always takes the
`parseInt` branch, since `substr` returns a string, never `undefined`. -/
def listAuctionPagination (next : Option String) (size : Nat) : AuctionPagination :=
  let size := if size > 30 then 30 else size
  match next with
  | none => { start := none, limit := size }
  | some next =>
    let vaultId := jsSubstr next 0 (some 64)
    let height := jsSubstr next 64 none
    { start := some { vaultId := vaultId, height := jsParseInt height }, limit := size }

end LoanVaultService

/-! ## Claims about the read-model builder -/

theorem exceptMapM_singleton {α β ε : Type} (f : α → Except ε β) (a : α) (e : ε)
    (h : f a = .error e) : List.mapM f [a] = .error e := by
  simp only [List.mapM, List.mapM.loop, h]
  rfl

/-- Token X, whose registry id is "3". -/
def tokenInfoX : TokenInfo := { symbol := "X", symbolKey := "X", name := "Token X" }

/-- Token Y, whose registry id is "1". -/
def tokenInfoY : TokenInfo := { symbol := "Y", symbolKey := "Y", name := "Token Y" }

/-- Token Z, whose registry id is "10". -/
def tokenInfoZ : TokenInfo := { symbol := "Z", symbolKey := "Z", name := "Token Z" }

/-- A concrete environment: three resolvable tokens with numeric ids 3,
1 and 10, no active prices, no schemes. -/
def env0 : VaultEnv :=
  { loanSchemes := []
    defaultSchemeId := none
    tokenInfoBySymbol := fun s =>
      if s = "X" then some ("3", tokenInfoX)
      else if s = "Y" then some ("1", tokenInfoY)
      else if s = "Z" then some ("10", tokenInfoZ)
      else none
    activePriceQuery := fun _ _ => []
    parseDisplaySymbol := fun i => i.symbol }

/-- Claim C6 (the spec itself flags this in §9 as a latent defect): the
single-argument comparator `a => Number.parseInt(a.id)` ignores its
second argument and returns a positive number for every entry, so the
sort never reorders: input amounts for token ids "3", "1", "10" come
out in input order "3", "1", "10", not in the ascending numeric order
"1", "3", "10" the claim states. -/
theorem token_amounts_not_numerically_sorted :
    (LoanVaultService.mapTokenAmounts env0
        (some [some "1.5@X", some "2@Y", some "3@Z"])).map
      (fun l => l.map (fun a => a.id)) = .ok ["3", "1", "10"] ∧
    ["3", "1", "10"] ≠ ["1", "3", "10"] := by
  exact ⟨rfl, by decide⟩

/-- A liquidation batch whose source supplies zero loan entries. -/
def c8batch : VaultLiquidationBatch := { index := 0, collaterals := some [], loan := none }

/-- Claim C8 counterexample: on a batch with an absent loan the mapper
throws a TypeError at the `value.split('@')` step instead of surfacing
an empty/absent loan field. -/
theorem zero_loan_counterexample :
    LoanVaultService.mapLiquidationBatches env0 [c8batch] = .error .typeError ∧
    LoanVaultService.mapLiquidationBatches env0 [c8batch] ≠
      .ok [{ index := 0, collaterals := [], loan := none }] := by
  refine ⟨rfl, ?_⟩
  intro h
  exact Except.noConfusion h

/-- Claim C8 (amended): for a batch whose source supplies zero loan
entries (absent `loan` field) and whose collaterals map successfully,
the auction mapper FAILS with a TypeError — `[batch.loan]` is a
one-element list containing `undefined`, which escapes the
empty-items guard and crashes at `value.split('@')` — rather than
surfacing an empty/absent loan field. -/
theorem zero_loan_throws (env : VaultEnv) (b : VaultLiquidationBatch)
    (l : List LoanVaultTokenAmount)
    (hloan : b.loan = none)
    (hcoll : LoanVaultService.mapTokenAmounts env b.collaterals = .ok l) :
    LoanVaultService.mapLiquidationBatches env [b] = .error .typeError := by
  have hl : LoanVaultService.mapTokenAmounts env (some [b.loan]) = .error .typeError := by
    rw [hloan]
    rfl
  rw [LoanVaultService.mapLiquidationBatches, if_neg (by simp)]
  apply exceptMapM_singleton
  dsimp only
  simp only [hcoll, hl]
  rfl

/-- Witness for the amended C8 at a concrete input. -/
theorem zero_loan_throws_witness :
    LoanVaultService.mapLiquidationBatches env0 [c8batch] = .error .typeError :=
  zero_loan_throws env0 c8batch [] rfl rfl

/-- The node-side malformed-vault-id message format (external; its shape
is fixed by the literal the source compares against, which is this
format at id 999). -/
def underLengthMsg (id : String) : String :=
  "vaultId must be of length 64 (not " ++ toString id.length ++ ", for " ++
    LoanVaultService.squote ++ id ++ LoanVaultService.squote ++ ")"

/-- The hard-coded literal in the source is exactly the malformed-id
message for the id 999. -/
theorem underLengthMsg_at_999 : underLengthMsg "999" = LoanVaultService.vaultIdLengthMsg := rfl

/-- A node that reports every fetched id as malformed/under-length. -/
def nodeShortId : String → Except Thrown VaultRaw :=
  fun id => .error (.rpcApi (underLengthMsg id))

/-- A node that reports the vault-not-found message for id "9999". -/
def nodeNotFound9999 : String → Except Thrown VaultRaw :=
  fun _ => .error (.rpcApi (LoanVaultService.vaultNotFoundMsg "9999"))

/-- Claim C7 counterexample: fetching the 4-character id "9999" (shorter
than 64) when the node reports its malformed-id message yields
BadRequest, not NotFound — the source only string-matches the node's
message for the literal id 999. -/
theorem get_short_id_counterexample :
    ("9999".length < 64) ∧
    LoanVaultService.get env0 nodeShortId "9999" =
      .error (.badRequest (underLengthMsg "9999")) ∧
    LoanVaultService.get env0 nodeShortId "9999" ≠
      .error (.notFound "Unable to find vault") := by
  refine ⟨by decide, rfl, ?_⟩
  intro h
  rw [show LoanVaultService.get env0 nodeShortId "9999" =
      (.error (.badRequest (underLengthMsg "9999")) : Except HttpException LoanVault)
      from rfl] at h
  injection h with h2
  cases h2

/-- Claim C7 (amended): when the node call of a single-vault fetch
fails, the error is translated to NotFound exactly when it is an
`RpcApiError` whose message is the vault-not-found message for that id
or the one hard-coded malformed-id message for the literal id 999;
every other node error — including malformed-id messages for other
under-length ids — is translated to BadRequest with the upstream
message preserved. -/
theorem get_error_translation (env : VaultEnv) (node : String → Except Thrown VaultRaw)
    (id : String) (e : Thrown) (hnode : node id = .error e) :
    (LoanVaultService.get env node id = .error (.notFound "Unable to find vault") ↔
      ∃ m, e = Thrown.rpcApi m ∧
        (m = LoanVaultService.vaultNotFoundMsg id ∨ m = LoanVaultService.vaultIdLengthMsg)) ∧
    ((∀ m, e = Thrown.rpcApi m →
        ¬(m = LoanVaultService.vaultNotFoundMsg id ∨ m = LoanVaultService.vaultIdLengthMsg)) →
      LoanVaultService.get env node id =
        .error (.badRequest (LoanVaultService.thrownMessage e))) := by
  have hget : LoanVaultService.get env node id =
      if LoanVaultService.isVaultNotFoundErr id e then
        .error (.notFound "Unable to find vault")
      else .error (.badRequest (LoanVaultService.thrownMessage e)) := by
    rw [LoanVaultService.get]
    have hbody : (do
        let vault ← node id
        LoanVaultService.mapLoanVault env vault : Except Thrown LoanVault) = .error e := by
      rw [hnode]
      rfl
    rw [hbody]
  rw [hget]
  cases e with
  | rpcApi m =>
    by_cases hm : m = LoanVaultService.vaultNotFoundMsg id ∨ m = LoanVaultService.vaultIdLengthMsg
    · have hcond : LoanVaultService.isVaultNotFoundErr id (.rpcApi m) = true := by
        rw [LoanVaultService.isVaultNotFoundErr]
        rcases hm with hm | hm <;> simp [hm]
      rw [if_pos hcond]
      constructor
      · constructor
        · intro _
          exact ⟨m, rfl, hm⟩
        · intro _
          rfl
      · intro hall
        exact absurd hm (hall m rfl)
    · have hcond : ¬ LoanVaultService.isVaultNotFoundErr id (.rpcApi m) = true := by
        rw [LoanVaultService.isVaultNotFoundErr]
        simp only [Bool.or_eq_true, beq_iff_eq]
        exact hm
      rw [if_neg hcond]
      constructor
      · constructor
        · intro h
          injection h with h2
          cases h2
        · rintro ⟨m', hm', hcase⟩
          injection hm' with h3
          subst h3
          exact absurd hcase hm
      · intro _
        rfl
  | typeError =>
    have hcf : LoanVaultService.isVaultNotFoundErr id Thrown.typeError = false := rfl
    rw [if_neg (by rw [hcf]; exact Bool.false_ne_true)]
    refine ⟨⟨?_, ?_⟩, fun _ => rfl⟩
    · intro h
      injection h with h2
      cases h2
    · rintro ⟨m, hm, -⟩
      cases hm
  | httpEx e2 =>
    have hcf : LoanVaultService.isVaultNotFoundErr id (Thrown.httpEx e2) = false := rfl
    rw [if_neg (by rw [hcf]; exact Bool.false_ne_true)]
    refine ⟨⟨?_, ?_⟩, fun _ => rfl⟩
    · intro h
      injection h with h2
      cases h2
    · rintro ⟨m, hm, -⟩
      cases hm

/-- Witness for the amended C7 at a concrete input: the exact
vault-not-found message for the fetched id is translated to NotFound. -/
theorem get_error_translation_witness :
    LoanVaultService.get env0 nodeNotFound9999 "9999" =
      .error (.notFound "Unable to find vault") :=
  (get_error_translation env0 nodeNotFound9999 "9999"
      (.rpcApi (LoanVaultService.vaultNotFoundMsg "9999")) rfl).1.mpr
    ⟨LoanVaultService.vaultNotFoundMsg "9999", rfl, Or.inl rfl⟩

/-- A 64-character cursor (vault id only, empty height remainder). -/
def cursor64 : String := String.mk (List.replicate 64 'a')

/-- Claim C9 counterexample: a cursor of exactly 64 characters has an
empty remainder; the code parses it with `parseInt`, producing NaN
(modelled `none`), not the height 0 the claim says it defaults to. -/
theorem auction_cursor_counterexample :
    (LoanVaultService.listAuctionPagination (some cursor64) 30).start =
      some { vaultId := cursor64, height := none } ∧
    (LoanVaultService.listAuctionPagination (some cursor64) 30).start ≠
      some { vaultId := cursor64, height := some 0 } := by
  refine ⟨rfl, ?_⟩
  intro h
  rw [show (LoanVaultService.listAuctionPagination (some cursor64) 30).start =
      some ({ vaultId := cursor64, height := none } :
        LoanVaultService.AuctionPaginationStart) from rfl] at h
  injection h with h2
  injection h2 with h3 h4
  cases h4

/-- Claim C9 (amended): the auction cursor is parsed by taking its
first 64 characters as the vault id and `parseInt` of the remainder as
the height; an unparsable remainder (for example the empty one) gives
NaN (`none`), not 0 — the source's `: 0` default branch is unreachable
because `substr` never returns `undefined`. -/
theorem auction_cursor_parse :
    (∀ (next : String) (size : Nat),
      LoanVaultService.listAuctionPagination (some next) size =
        { start := some
            { vaultId := (next.toList.take 64).asString
              height := jsParseInt (next.toList.drop 64).asString }
          limit := if size > 30 then 30 else size }) ∧
    jsParseInt "" = none := by
  exact ⟨fun next size => rfl, rfl⟩
